import Mathlib

/-!
Verification of the animation keyframe converter
(`meshcat_html_importer/animation/keyframe_converter.py`).

The Python code works on floats; it is embedded here over the real numbers,
the exact idealization of its arithmetic: `math.sqrt` becomes `Real.sqrt`,
Python float division becomes real division guarded by an explicit
`ZeroDivisionError` value (Python raises on division by zero), Python
`int(x)` becomes truncation toward zero, and Python 3 `round(x)` becomes
rounding to the nearest integer with ties to even.  Fallible paths return
`Except PyError`.
-/

/-- Python runtime errors that the keyframe converter can raise:
division of a float by zero, and list indexing out of range. -/
inductive PyError where
  | zeroDivisionError
  | indexError
deriving DecidableEq, Repr

/-- Python float division `a / b`: raises `ZeroDivisionError` when `b == 0`. -/
noncomputable def pydiv (a b : ℝ) : Except PyError ℝ :=
  if b = 0 then .error .zeroDivisionError else .ok (a / b)

/-- Python `int(x)` applied to a float: truncation toward zero. -/
noncomputable def pyint (x : ℝ) : ℤ :=
  if 0 ≤ x then ⌊x⌋ else ⌈x⌉

/-- Python 3 builtin `round(x)` for a float `x`: the nearest integer, with
exact half-integer values rounded to the even neighbour.  Away from the tie
it agrees with Mathlib `round` (which is rounding half up, hence nearest
when there is no tie). -/
noncomputable def pyround (x : ℝ) : ℤ :=
  if Int.fract x = 1 / 2 then (if 2 ∣ ⌊x⌋ then ⌊x⌋ else ⌊x⌋ + 1) else round x

/-- Rounding to the nearest integer with half-integer values rounded away
from zero.  This is the rounding mode the specification recommends; it is
stated here only to compare it against the Python behaviour `pyround`. -/
noncomputable def round_half_away (x : ℝ) : ℤ :=
  if Int.fract x = 1 / 2 then (if 0 ≤ x then ⌊x⌋ + 1 else ⌊x⌋) else round x

/-- Modelled from the spec: the keyframe record owned by the external scene
graph (`meshcat_html_importer.scene.scene_graph.AnimationKeyframe`, not part
of this package).  A time in source sample units and three optional
channels: position, rotation (a quaternion in x,y,z,w order) and scale. -/
structure AnimationKeyframe where
  time : ℝ
  position : Option (ℝ × ℝ × ℝ)
  rotation : Option (ℝ × ℝ × ℝ × ℝ)
  scale : Option (ℝ × ℝ × ℝ)

/-- Modelled from the spec: the part of the external scene node record that
this core consumes, namely its ordered collection of keyframes. -/
structure SceneNode where
  keyframes : List AnimationKeyframe

/-- Python list indexing `l[i]` for a nonnegative index `i`:
`IndexError` when the index is out of range. -/
def pyget {α : Type} (l : List α) (i : ℕ) : Except PyError α :=
  match l.get? i with
  | none => .error .indexError
  | some a => .ok a

/-- Python list indexing `l[-1]` (the last element):
`IndexError` on an empty list. -/
def pyget_last {α : Type} (l : List α) : Except PyError α :=
  match l.getLast? with
  | none => .error .indexError
  | some a => .ok a

/-- Function `time_to_frame` (keyframe_converter.py, lines 38-57): convert a
recording time to a target frame number, `start_frame +
round(time_value / recording_fps * target_fps)`. -/
noncomputable def time_to_frame (time_value recording_fps target_fps : ℝ)
    (start_frame : ℤ) : Except PyError ℤ := do
  let time_seconds ← pydiv time_value recording_fps
  pure (start_frame + pyround (time_seconds * target_fps))

/-- Function `_lerp_tuple3` (lines 157-173): component-wise linear interpolation of
two optional 3-tuples; a missing side passes the other side through. -/
def _lerp_tuple3 (a b : Option (ℝ × ℝ × ℝ)) (t : ℝ) : Option (ℝ × ℝ × ℝ) :=
  match a, b with
  | none, none => none
  | none, some b0 => some b0
  | some a0, none => some a0
  | some (a1, a2, a3), some (b1, b2, b3) =>
      some (a1 + (b1 - a1) * t, a2 + (b2 - a2) * t, a3 + (b3 - a3) * t)

/-- Function `_nlerp_quat` (lines 176-209): normalized linear interpolation of two
optional quaternions in (x,y,z,w) order.  A missing side passes the other
side through; otherwise the second quaternion is negated when the dot
product is negative (shortest path), the components are linearly
interpolated, and the result is renormalized unless its length is zero. -/
noncomputable def _nlerp_quat (a b : Option (ℝ × ℝ × ℝ × ℝ)) (t : ℝ) :
    Option (ℝ × ℝ × ℝ × ℝ) :=
  match a, b with
  | none, none => none
  | none, some b0 => some b0
  | some a0, none => some a0
  | some (a1, a2, a3, a4), some (c1, c2, c3, c4) =>
      let dot := a1 * c1 + a2 * c2 + a3 * c3 + a4 * c4
      let b1 := if dot < 0 then -c1 else c1
      let b2 := if dot < 0 then -c2 else c2
      let b3 := if dot < 0 then -c3 else c3
      let b4 := if dot < 0 then -c4 else c4
      let x := a1 + (b1 - a1) * t
      let y := a2 + (b2 - a2) * t
      let z := a3 + (b3 - a3) * t
      let w := a4 + (b4 - a4) * t
      let length := Real.sqrt (x * x + y * y + z * z + w * w)
      if length > 0 then some (x / length, y / length, z / length, w / length)
      else some (x, y, z, w)

/-- Python `sorted(keyframes, key=lambda kf: kf.time)` (line 83): a stable sort of
the keyframes by time. -/
noncomputable def sort_keyframes (keyframes : List AnimationKeyframe) :
    List AnimationKeyframe :=
  keyframes.mergeSort (fun k1 k2 => decide (k1.time ≤ k2.time))

/-- Python `bisect.bisect_right(a, x)` (line 110) for a list sorted ascending: the
insertion point that keeps the list sorted with `x` placed after equal
entries, i.e. the number of entries that are `<= x`. -/
noncomputable def bisect_right (a : List ℝ) (x : ℝ) : ℕ :=
  a.countP (fun y => decide (y ≤ x))

/-- The body of the resampling loop of `downsample_keyframes`
(lines 105-152): emit the keyframe for one target frame, either clamped to
the first or last source keyframe or interpolated between the bracketing
pair found by binary search. -/
noncomputable def resample_frame (sorted_kfs : List AnimationKeyframe)
    (recording_fps target_fps : ℝ) (target_frame : ℕ) :
    Except PyError AnimationKeyframe := do
  let min_time : ℝ := 0
  let all_times := sorted_kfs.map AnimationKeyframe.time
  let target_time_seconds ← pydiv (target_frame : ℝ) target_fps
  let target_recording_time := min_time + target_time_seconds * recording_fps
  let idx := bisect_right all_times target_recording_time
  if idx = 0 then do
    let kf ← pyget sorted_kfs 0
    pure ⟨(target_frame : ℝ), kf.position, kf.rotation, kf.scale⟩
  else if idx ≥ sorted_kfs.length then do
    let kf ← pyget_last sorted_kfs
    pure ⟨(target_frame : ℝ), kf.position, kf.rotation, kf.scale⟩
  else do
    let kf_a ← pyget sorted_kfs (idx - 1)
    let kf_b ← pyget sorted_kfs idx
    let dt := kf_b.time - kf_a.time
    let t := if dt > 0 then (target_recording_time - kf_a.time) / dt else 0
    pure ⟨(target_frame : ℝ),
          _lerp_tuple3 kf_a.position kf_b.position t,
          _nlerp_quat kf_a.rotation kf_b.rotation t,
          _lerp_tuple3 kf_a.scale kf_b.scale t⟩

/-- Function `downsample_keyframes` (lines 60-154): pass the input through when it is
empty or the target rate is at least the recording rate; otherwise sort by
time, pass through when fewer than two keyframes remain, and otherwise emit
one interpolated keyframe per target frame over the full duration. -/
noncomputable def downsample_keyframes (keyframes : List AnimationKeyframe)
    (recording_fps target_fps : ℝ) : Except PyError (List AnimationKeyframe) :=
  if keyframes.isEmpty ∨ target_fps ≥ recording_fps then .ok keyframes
  else
    let sorted_kfs := sort_keyframes keyframes
    if sorted_kfs.length < 2 then .ok sorted_kfs
    else do
      let last_kf ← pyget_last sorted_kfs
      let max_time := last_kf.time
      let duration_seconds ← pydiv max_time recording_fps
      let target_frame_count := pyint (duration_seconds * target_fps) + 1
      (List.range target_frame_count.toNat).mapM
        (resample_frame sorted_kfs recording_fps target_fps)

/-- Function `get_animation_range` (lines 266-294): scan every keyframe of every
node, folding the maximum time starting from 0, and report the pair of the
start frame and `start_frame + round(max_time / recording_fps * target_fps)`. -/
noncomputable def get_animation_range (nodes : List SceneNode)
    (recording_fps target_fps : ℝ) (start_frame : ℤ) :
    Except PyError (ℤ × ℤ) := do
  let min_frame := start_frame
  let max_time := nodes.foldl
    (fun acc node => node.keyframes.foldl (fun acc2 kf => max acc2 kf.time) acc) 0
  let duration_seconds ← pydiv max_time recording_fps
  let max_frame := start_frame + pyround (duration_seconds * target_fps)
  pure (min_frame, max_frame)

/-- Squared magnitude of a quaternion in (x,y,z,w) component order. -/
def quat_norm_sq (q : ℝ × ℝ × ℝ × ℝ) : ℝ :=
  q.1 ^ 2 + q.2.1 ^ 2 + q.2.2.1 ^ 2 + q.2.2.2 ^ 2

/-- Magnitude of a quaternion in (x,y,z,w) component order. -/
noncomputable def quat_norm (q : ℝ × ℝ × ℝ × ℝ) : ℝ :=
  Real.sqrt (quat_norm_sq q)

/-- Component-wise negation of a quaternion: the opposite-sign
representative of the same rotation. -/
def quat_neg (q : ℝ × ℝ × ℝ × ℝ) : ℝ × ℝ × ℝ × ℝ :=
  (-q.1, -q.2.1, -q.2.2.1, -q.2.2.2)

/-- Two keyframes carry the same channel values (time aside). -/
def sameChannels (k1 k2 : AnimationKeyframe) : Prop :=
  k1.position = k2.position ∧ k1.rotation = k2.rotation ∧ k1.scale = k2.scale

/-! ### Infrastructure lemmas -/

theorem except_bind_ok {α β : Type} (a : α) (f : α → Except PyError β) :
    (Except.ok a >>= f) = f a := rfl

theorem except_bind_err {α β : Type} (e : PyError) (f : α → Except PyError β) :
    ((Except.error e : Except PyError α) >>= f) = Except.error e := rfl

theorem except_pure {α : Type} (a : α) :
    (pure a : Except PyError α) = Except.ok a := rfl

theorem pyget_zero {α : Type} (l : List α) (hne : l ≠ []) :
    pyget l 0 = Except.ok (l.head hne) := by
  cases l with
  | nil => exact absurd rfl hne
  | cons a l => rfl

theorem pyget_last_eq {α : Type} (l : List α) (hne : l ≠ []) :
    pyget_last l = Except.ok (l.getLast hne) := by
  unfold pyget_last
  rw [List.getLast?_eq_getLast l hne]

theorem pyget_get {α : Type} (l : List α) (i : ℕ) (h : i < l.length) :
    pyget l i = Except.ok (l.get ⟨i, h⟩) := by
  unfold pyget
  rw [List.get?_eq_get h]

theorem sort_keyframes_perm (kfs : List AnimationKeyframe) :
    (sort_keyframes kfs).Perm kfs :=
  List.mergeSort_perm kfs _

theorem mem_sort_keyframes {kf : AnimationKeyframe} {kfs : List AnimationKeyframe} :
    kf ∈ sort_keyframes kfs ↔ kf ∈ kfs :=
  (sort_keyframes_perm kfs).mem_iff

theorem sort_keyframes_length (kfs : List AnimationKeyframe) :
    (sort_keyframes kfs).length = kfs.length :=
  List.length_mergeSort kfs

theorem sort_keyframes_sorted (kfs : List AnimationKeyframe) :
    List.Pairwise (fun k1 k2 => k1.time ≤ k2.time) (sort_keyframes kfs) := by
  have h := @List.sorted_mergeSort AnimationKeyframe
    (fun k1 k2 => decide (k1.time ≤ k2.time))
    (fun a b c hab hbc => by
      simp only [decide_eq_true_eq] at *
      exact le_trans hab hbc)
    (fun a b => by
      simp only [Bool.or_eq_true, decide_eq_true_eq]
      exact le_total a.time b.time)
    kfs
  exact h.imp (by simp only [decide_eq_true_eq]; exact id)

theorem sort_keyframes_of_sorted {kfs : List AnimationKeyframe}
    (h : List.Pairwise (fun k1 k2 => k1.time ≤ k2.time) kfs) :
    sort_keyframes kfs = kfs :=
  List.mergeSort_of_sorted (h.imp fun hab => decide_eq_true hab)

theorem sorted_times_of_sorted (kfs : List AnimationKeyframe) :
    List.Sorted (· ≤ ·) ((sort_keyframes kfs).map AnimationKeyframe.time) :=
  List.pairwise_map.mpr (sort_keyframes_sorted kfs)

theorem sorted_head_le {ts : List ℝ} (hs : ts.Sorted (· ≤ ·)) (hne : ts ≠ []) :
    ∀ y ∈ ts, ts.head hne ≤ y := by
  cases ts with
  | nil => exact absurd rfl hne
  | cons a l =>
    intro y hy
    rcases List.mem_cons.mp hy with rfl | h
    · exact le_refl _
    · exact List.rel_of_sorted_cons hs y h

theorem sorted_le_getLast {ts : List ℝ} (hs : ts.Sorted (· ≤ ·)) (hne : ts ≠ []) :
    ∀ y ∈ ts, y ≤ ts.getLast hne := by
  induction ts with
  | nil => exact absurd rfl hne
  | cons a l ih =>
    intro y hy
    rcases List.mem_cons.mp hy with h | h
    · subst h
      cases l with
      | nil => simp
      | cons b l2 =>
        rw [List.getLast_cons (by simp)]
        exact le_trans (List.rel_of_sorted_cons hs b (by simp))
          (ih (List.sorted_cons.mp hs).2 (by simp) b (by simp))
    · cases l with
      | nil => simp at h
      | cons b l2 =>
        rw [List.getLast_cons (by simp)]
        exact ih (List.sorted_cons.mp hs).2 (by simp) y h

theorem bisect_right_le_length (a : List ℝ) (x : ℝ) :
    bisect_right a x ≤ a.length :=
  List.countP_le_length _

theorem bisect_right_eq_zero {ts : List ℝ} {x : ℝ} (h : ∀ y ∈ ts, x < y) :
    bisect_right ts x = 0 :=
  List.countP_eq_zero.mpr fun y hy => by
    simp only [decide_eq_true_eq]
    exact not_le.mpr (h y hy)

theorem bisect_right_eq_length {ts : List ℝ} {x : ℝ} (h : ∀ y ∈ ts, y ≤ x) :
    bisect_right ts x = ts.length :=
  List.countP_eq_length.mpr fun y hy => decide_eq_true (h y hy)

theorem bisect_right_cons (a : ℝ) (l : List ℝ) (x : ℝ) :
    bisect_right (a :: l) x =
      bisect_right l x + if a ≤ x then 1 else 0 := by
  simp only [bisect_right, List.countP_cons, decide_eq_true_eq]

/-- Right-biased binary search, upper side: the entry at the insertion point
(when it exists) is strictly greater than the query. -/
theorem bisect_right_lt_get {ts : List ℝ} {x : ℝ} (hs : ts.Sorted (· ≤ ·))
    (h : bisect_right ts x < ts.length) :
    x < ts.get ⟨bisect_right ts x, h⟩ := by
  induction ts with
  | nil => simp [bisect_right] at h
  | cons a l ih =>
    have hal := (List.sorted_cons.mp hs).1
    have hl := (List.sorted_cons.mp hs).2
    by_cases hax : a ≤ x
    · have hrw : bisect_right (a :: l) x = bisect_right l x + 1 := by
        rw [bisect_right_cons, if_pos hax]
      have hlen : bisect_right l x < l.length := by
        have := h
        rw [hrw] at this
        simpa using this
      have hidx : (⟨bisect_right (a :: l) x, h⟩ : Fin (a :: l).length) =
          ⟨bisect_right l x + 1, by simpa using hlen⟩ := Fin.ext hrw
      rw [hidx]
      simpa using ih hl hlen
    · have hzero : bisect_right l x = 0 :=
        bisect_right_eq_zero fun y hy =>
          lt_of_lt_of_le (not_le.mp hax) (hal y hy)
      have hrw : bisect_right (a :: l) x = 0 := by
        rw [bisect_right_cons, if_neg hax, hzero]
      have hidx : (⟨bisect_right (a :: l) x, h⟩ : Fin (a :: l).length) =
          ⟨0, by simp⟩ := Fin.ext hrw
      rw [hidx]
      simpa using not_le.mp hax

/-- Right-biased binary search, lower side: the entry just before the
insertion point (when the point is positive) is at most the query. -/
theorem bisect_right_get_le {ts : List ℝ} {x : ℝ} (hs : ts.Sorted (· ≤ ·))
    (h0 : 0 < bisect_right ts x) (h : bisect_right ts x - 1 < ts.length) :
    ts.get ⟨bisect_right ts x - 1, h⟩ ≤ x := by
  induction ts with
  | nil => simp [bisect_right] at h0
  | cons a l ih =>
    have hal := (List.sorted_cons.mp hs).1
    have hl := (List.sorted_cons.mp hs).2
    by_cases hax : a ≤ x
    · have hrw : bisect_right (a :: l) x = bisect_right l x + 1 := by
        rw [bisect_right_cons, if_pos hax]
      rcases Nat.eq_zero_or_pos (bisect_right l x) with hz | hpos
      · have hidx : (⟨bisect_right (a :: l) x - 1, h⟩ : Fin (a :: l).length) =
            ⟨0, by simp⟩ := Fin.ext (by show bisect_right (a :: l) x - 1 = 0; omega)
        rw [hidx]
        exact hax
      · have hle := bisect_right_le_length l x
        have hlen : bisect_right l x - 1 < l.length := by omega
        have hsub : bisect_right (a :: l) x - 1 = (bisect_right l x - 1) + 1 := by
          rw [hrw]
          omega
        have hidx : (⟨bisect_right (a :: l) x - 1, h⟩ : Fin (a :: l).length) =
            ⟨(bisect_right l x - 1) + 1, by simpa using hlen⟩ := Fin.ext hsub
        rw [hidx]
        simpa using ih hl hpos hlen
    · have hzero : bisect_right l x = 0 :=
        bisect_right_eq_zero fun y hy =>
          lt_of_lt_of_le (not_le.mp hax) (hal y hy)
      have hrw : bisect_right (a :: l) x = 0 := by
        rw [bisect_right_cons, if_neg hax, hzero]
      rw [hrw] at h0
      exact absurd h0 (lt_irrefl 0)

/-- A list `mapM` over `Except` whose body never fails returns the list of
all the results, matched up entry by entry. -/
theorem mapM_except_ok {α β : Type} (f : α → Except PyError β) :
    ∀ (l : List α), (∀ a ∈ l, ∃ b, f a = Except.ok b) →
      ∃ l2, l.mapM f = Except.ok l2 ∧
        List.Forall₂ (fun a b => f a = Except.ok b) l l2 := by
  intro l
  induction l with
  | nil =>
    intro _
    exact ⟨[], by rw [List.mapM_nil]; rfl, List.Forall₂.nil⟩
  | cons a l ih =>
    intro h
    obtain ⟨b, hb⟩ := h a (by simp)
    obtain ⟨l2, hl2, hf⟩ := ih fun a2 ha2 => h a2 (by simp [ha2])
    refine ⟨b :: l2, ?_, List.Forall₂.cons hb hf⟩
    rw [List.mapM_cons, hb, except_bind_ok, hl2, except_bind_ok]
    rfl

/-- Rounding `pyround` gives a nearest integer and resolves exact half-integer ties to
the even neighbour. -/
theorem pyround_nearest_even (x : ℝ) :
    |x - (pyround x : ℝ)| ≤ 1 / 2 ∧ (Int.fract x = 1 / 2 → Even (pyround x)) := by
  unfold pyround
  by_cases hfr : Int.fract x = 1 / 2
  · rw [if_pos hfr]
    have hsub : x - (⌊x⌋ : ℝ) = 1 / 2 := by
      rw [Int.self_sub_floor, hfr]
    by_cases hev : (2 : ℤ) ∣ ⌊x⌋
    · rw [if_pos hev]
      constructor
      · rw [hsub]
        norm_num [abs_le]
      · intro _
        obtain ⟨k, hk⟩ := hev
        exact ⟨k, by omega⟩
    · rw [if_neg hev]
      constructor
      · have hsub2 : x - ((⌊x⌋ : ℝ) + 1) = -(1 / 2) := by
          linarith
        rw [Int.cast_add, Int.cast_one, hsub2]
        norm_num [abs_le]
      · intro _
        refine Int.even_add_one.mpr fun he => hev ?_
        obtain ⟨k, hk⟩ := he
        exact ⟨k, by omega⟩
  · rw [if_neg hfr]
    exact ⟨abs_sub_round x, fun h => absurd h hfr⟩

/-! ### Branch characterization of the resampling loop body -/

theorem resample_frame_clamp_first (sorted_kfs : List AnimationKeyframe)
    (recording_fps target_fps : ℝ) (i : ℕ) (htgt : target_fps ≠ 0)
    (hne : sorted_kfs ≠ [])
    (hidx : bisect_right (sorted_kfs.map AnimationKeyframe.time)
      ((i : ℝ) / target_fps * recording_fps) = 0) :
    resample_frame sorted_kfs recording_fps target_fps i =
      Except.ok ⟨(i : ℝ), (sorted_kfs.head hne).position,
        (sorted_kfs.head hne).rotation, (sorted_kfs.head hne).scale⟩ := by
  unfold resample_frame
  rw [pydiv, if_neg htgt, except_bind_ok]
  simp only [zero_add]
  rw [if_pos hidx, pyget_zero sorted_kfs hne, except_bind_ok]
  rfl

theorem resample_frame_clamp_last (sorted_kfs : List AnimationKeyframe)
    (recording_fps target_fps : ℝ) (i : ℕ) (htgt : target_fps ≠ 0)
    (hne : sorted_kfs ≠ [])
    (hidx0 : bisect_right (sorted_kfs.map AnimationKeyframe.time)
      ((i : ℝ) / target_fps * recording_fps) ≠ 0)
    (hidx : bisect_right (sorted_kfs.map AnimationKeyframe.time)
      ((i : ℝ) / target_fps * recording_fps) ≥ sorted_kfs.length) :
    resample_frame sorted_kfs recording_fps target_fps i =
      Except.ok ⟨(i : ℝ), (sorted_kfs.getLast hne).position,
        (sorted_kfs.getLast hne).rotation, (sorted_kfs.getLast hne).scale⟩ := by
  unfold resample_frame
  rw [pydiv, if_neg htgt, except_bind_ok]
  simp only [zero_add]
  rw [if_neg hidx0, if_pos hidx, pyget_last_eq sorted_kfs hne, except_bind_ok]
  rfl

theorem resample_frame_interp (sorted_kfs : List AnimationKeyframe)
    (recording_fps target_fps : ℝ) (i : ℕ) (htgt : target_fps ≠ 0)
    (h0 : 0 < bisect_right (sorted_kfs.map AnimationKeyframe.time)
      ((i : ℝ) / target_fps * recording_fps))
    (h1 : bisect_right (sorted_kfs.map AnimationKeyframe.time)
      ((i : ℝ) / target_fps * recording_fps) < sorted_kfs.length)
    (ha : bisect_right (sorted_kfs.map AnimationKeyframe.time)
      ((i : ℝ) / target_fps * recording_fps) - 1 < sorted_kfs.length) :
    resample_frame sorted_kfs recording_fps target_fps i =
      Except.ok ⟨(i : ℝ),
        _lerp_tuple3
          (sorted_kfs.get ⟨bisect_right (sorted_kfs.map AnimationKeyframe.time)
            ((i : ℝ) / target_fps * recording_fps) - 1, ha⟩).position
          (sorted_kfs.get ⟨bisect_right (sorted_kfs.map AnimationKeyframe.time)
            ((i : ℝ) / target_fps * recording_fps), h1⟩).position
          (if (sorted_kfs.get ⟨bisect_right (sorted_kfs.map AnimationKeyframe.time)
                ((i : ℝ) / target_fps * recording_fps), h1⟩).time -
              (sorted_kfs.get ⟨bisect_right (sorted_kfs.map AnimationKeyframe.time)
                ((i : ℝ) / target_fps * recording_fps) - 1, ha⟩).time > 0 then
            ((i : ℝ) / target_fps * recording_fps -
              (sorted_kfs.get ⟨bisect_right (sorted_kfs.map AnimationKeyframe.time)
                ((i : ℝ) / target_fps * recording_fps) - 1, ha⟩).time) /
            ((sorted_kfs.get ⟨bisect_right (sorted_kfs.map AnimationKeyframe.time)
                ((i : ℝ) / target_fps * recording_fps), h1⟩).time -
              (sorted_kfs.get ⟨bisect_right (sorted_kfs.map AnimationKeyframe.time)
                ((i : ℝ) / target_fps * recording_fps) - 1, ha⟩).time)
          else 0),
        _nlerp_quat
          (sorted_kfs.get ⟨bisect_right (sorted_kfs.map AnimationKeyframe.time)
            ((i : ℝ) / target_fps * recording_fps) - 1, ha⟩).rotation
          (sorted_kfs.get ⟨bisect_right (sorted_kfs.map AnimationKeyframe.time)
            ((i : ℝ) / target_fps * recording_fps), h1⟩).rotation
          (if (sorted_kfs.get ⟨bisect_right (sorted_kfs.map AnimationKeyframe.time)
                ((i : ℝ) / target_fps * recording_fps), h1⟩).time -
              (sorted_kfs.get ⟨bisect_right (sorted_kfs.map AnimationKeyframe.time)
                ((i : ℝ) / target_fps * recording_fps) - 1, ha⟩).time > 0 then
            ((i : ℝ) / target_fps * recording_fps -
              (sorted_kfs.get ⟨bisect_right (sorted_kfs.map AnimationKeyframe.time)
                ((i : ℝ) / target_fps * recording_fps) - 1, ha⟩).time) /
            ((sorted_kfs.get ⟨bisect_right (sorted_kfs.map AnimationKeyframe.time)
                ((i : ℝ) / target_fps * recording_fps), h1⟩).time -
              (sorted_kfs.get ⟨bisect_right (sorted_kfs.map AnimationKeyframe.time)
                ((i : ℝ) / target_fps * recording_fps) - 1, ha⟩).time)
          else 0),
        _lerp_tuple3
          (sorted_kfs.get ⟨bisect_right (sorted_kfs.map AnimationKeyframe.time)
            ((i : ℝ) / target_fps * recording_fps) - 1, ha⟩).scale
          (sorted_kfs.get ⟨bisect_right (sorted_kfs.map AnimationKeyframe.time)
            ((i : ℝ) / target_fps * recording_fps), h1⟩).scale
          (if (sorted_kfs.get ⟨bisect_right (sorted_kfs.map AnimationKeyframe.time)
                ((i : ℝ) / target_fps * recording_fps), h1⟩).time -
              (sorted_kfs.get ⟨bisect_right (sorted_kfs.map AnimationKeyframe.time)
                ((i : ℝ) / target_fps * recording_fps) - 1, ha⟩).time > 0 then
            ((i : ℝ) / target_fps * recording_fps -
              (sorted_kfs.get ⟨bisect_right (sorted_kfs.map AnimationKeyframe.time)
                ((i : ℝ) / target_fps * recording_fps) - 1, ha⟩).time) /
            ((sorted_kfs.get ⟨bisect_right (sorted_kfs.map AnimationKeyframe.time)
                ((i : ℝ) / target_fps * recording_fps), h1⟩).time -
              (sorted_kfs.get ⟨bisect_right (sorted_kfs.map AnimationKeyframe.time)
                ((i : ℝ) / target_fps * recording_fps) - 1, ha⟩).time)
          else 0)⟩ := by
  unfold resample_frame
  rw [pydiv, if_neg htgt, except_bind_ok]
  simp only [zero_add]
  rw [if_neg (Nat.pos_iff_ne_zero.mp h0), if_neg (not_le.mpr h1),
    pyget_get sorted_kfs _ ha, except_bind_ok, pyget_get sorted_kfs _ h1,
    except_bind_ok]
  rfl

/-- Normalizing a nonzero 4-vector by its Euclidean length yields a unit
vector. -/
theorem normalize_unit (x y z w : ℝ) (hS : 0 < x * x + y * y + z * z + w * w) :
    quat_norm_sq (x / Real.sqrt (x * x + y * y + z * z + w * w),
      y / Real.sqrt (x * x + y * y + z * z + w * w),
      z / Real.sqrt (x * x + y * y + z * z + w * w),
      w / Real.sqrt (x * x + y * y + z * z + w * w)) = 1 := by
  have hL2 : Real.sqrt (x * x + y * y + z * z + w * w) ^ 2 =
      x * x + y * y + z * z + w * w := Real.sq_sqrt hS.le
  simp only [quat_norm_sq]
  rw [div_pow, div_pow, div_pow, div_pow, div_add_div_same, div_add_div_same,
    div_add_div_same, hL2]
  rw [show x ^ 2 + y ^ 2 + z ^ 2 + w ^ 2 = x * x + y * y + z * z + w * w by ring]
  exact div_self (ne_of_gt hS)

/-- The linear interpolation of two unit quaternions with nonnegative dot
product has strictly positive squared length for weights in the unit
interval. -/
theorem lerp_quat_sq_pos (a1 a2 a3 a4 b1 b2 b3 b4 t : ℝ)
    (ha : a1 ^ 2 + a2 ^ 2 + a3 ^ 2 + a4 ^ 2 = 1)
    (hb : b1 ^ 2 + b2 ^ 2 + b3 ^ 2 + b4 ^ 2 = 1)
    (hd : 0 ≤ a1 * b1 + a2 * b2 + a3 * b3 + a4 * b4)
    (h0 : 0 ≤ t) (h1 : t ≤ 1) :
    0 < (a1 + (b1 - a1) * t) * (a1 + (b1 - a1) * t) +
        (a2 + (b2 - a2) * t) * (a2 + (b2 - a2) * t) +
        (a3 + (b3 - a3) * t) * (a3 + (b3 - a3) * t) +
        (a4 + (b4 - a4) * t) * (a4 + (b4 - a4) * t) := by
  have key : (a1 + (b1 - a1) * t) * (a1 + (b1 - a1) * t) +
      (a2 + (b2 - a2) * t) * (a2 + (b2 - a2) * t) +
      (a3 + (b3 - a3) * t) * (a3 + (b3 - a3) * t) +
      (a4 + (b4 - a4) * t) * (a4 + (b4 - a4) * t) =
      (1 - t) ^ 2 * (a1 ^ 2 + a2 ^ 2 + a3 ^ 2 + a4 ^ 2) +
      t ^ 2 * (b1 ^ 2 + b2 ^ 2 + b3 ^ 2 + b4 ^ 2) +
      2 * t * (1 - t) * (a1 * b1 + a2 * b2 + a3 * b3 + a4 * b4) := by ring
  rw [key, ha, hb]
  nlinarith [sq_nonneg (1 - 2 * t),
    mul_nonneg (mul_nonneg h0 (by linarith : (0 : ℝ) ≤ 1 - t)) hd]

/-- The nlerp of two unit quaternions at a weight in the unit interval is a
unit quaternion. -/
theorem nlerp_quat_unit {a b : ℝ × ℝ × ℝ × ℝ} {t : ℝ}
    (ha : quat_norm_sq a = 1) (hb : quat_norm_sq b = 1)
    (h0 : 0 ≤ t) (h1 : t ≤ 1) :
    ∀ q, _nlerp_quat (some a) (some b) t = some q → quat_norm_sq q = 1 := by
  obtain ⟨a1, a2, a3, a4⟩ := a
  obtain ⟨c1, c2, c3, c4⟩ := b
  simp only [quat_norm_sq] at ha hb
  intro q hq
  simp only [_nlerp_quat] at hq
  by_cases hdot : a1 * c1 + a2 * c2 + a3 * c3 + a4 * c4 < 0
  · simp only [if_pos hdot] at hq
    have hb2 : (-c1) ^ 2 + (-c2) ^ 2 + (-c3) ^ 2 + (-c4) ^ 2 = 1 := by
      simp only [neg_sq]
      exact hb
    have hd : 0 ≤ a1 * (-c1) + a2 * (-c2) + a3 * (-c3) + a4 * (-c4) := by
      have heq : a1 * (-c1) + a2 * (-c2) + a3 * (-c3) + a4 * (-c4) =
          -(a1 * c1 + a2 * c2 + a3 * c3 + a4 * c4) := by ring
      rw [heq]
      linarith
    have hS := lerp_quat_sq_pos a1 a2 a3 a4 (-c1) (-c2) (-c3) (-c4) t ha hb2 hd h0 h1
    rw [if_pos (Real.sqrt_pos.mpr hS)] at hq
    have hqe := Option.some.inj hq
    subst hqe
    exact normalize_unit _ _ _ _ hS
  · simp only [if_neg hdot] at hq
    have hd : 0 ≤ a1 * c1 + a2 * c2 + a3 * c3 + a4 * c4 := not_lt.mp hdot
    have hS := lerp_quat_sq_pos a1 a2 a3 a4 c1 c2 c3 c4 t ha hb hd h0 h1
    rw [if_pos (Real.sqrt_pos.mpr hS)] at hq
    have hqe := Option.some.inj hq
    subst hqe
    exact normalize_unit _ _ _ _ hS

/-- On a list sorted by time, an interior insertion point brackets the query
strictly: the keyframe before it is at most the query, the one at it is
strictly beyond. -/
theorem sorted_bracket (sorted_kfs : List AnimationKeyframe) (x : ℝ)
    (hs : List.Pairwise (fun k1 k2 => k1.time ≤ k2.time) sorted_kfs)
    (h0 : 0 < bisect_right (sorted_kfs.map AnimationKeyframe.time) x)
    (h1 : bisect_right (sorted_kfs.map AnimationKeyframe.time) x < sorted_kfs.length)
    (ha : bisect_right (sorted_kfs.map AnimationKeyframe.time) x - 1 < sorted_kfs.length) :
    (sorted_kfs.get ⟨bisect_right (sorted_kfs.map AnimationKeyframe.time) x - 1,
      ha⟩).time ≤ x ∧
    x < (sorted_kfs.get ⟨bisect_right (sorted_kfs.map AnimationKeyframe.time) x,
      h1⟩).time := by
  have hts : (sorted_kfs.map AnimationKeyframe.time).Sorted (· ≤ ·) :=
    List.pairwise_map.mpr hs
  have hlen : (sorted_kfs.map AnimationKeyframe.time).length = sorted_kfs.length :=
    List.length_map _ _
  constructor
  · have h2 : bisect_right (sorted_kfs.map AnimationKeyframe.time) x - 1 <
        (sorted_kfs.map AnimationKeyframe.time).length := by
      rw [hlen]
      exact ha
    have hle := bisect_right_get_le hts h0 h2
    simpa [List.get_eq_getElem, List.getElem_map] using hle
  · have h2 : bisect_right (sorted_kfs.map AnimationKeyframe.time) x <
        (sorted_kfs.map AnimationKeyframe.time).length := by
      rw [hlen]
      exact h1
    have hlt := bisect_right_lt_get hts h2
    simpa [List.get_eq_getElem, List.getElem_map] using hlt

theorem lerp_tuple3_none_left (b : Option (ℝ × ℝ × ℝ)) (t : ℝ) :
    _lerp_tuple3 none b t = b := by
  cases b <;> rfl

theorem lerp_tuple3_none_right (a : Option (ℝ × ℝ × ℝ)) (t : ℝ) :
    _lerp_tuple3 a none t = a := by
  cases a with
  | none => rfl
  | some a0 => obtain ⟨a1, a2, a3⟩ := a0; rfl

theorem nlerp_quat_none_left (b : Option (ℝ × ℝ × ℝ × ℝ)) (t : ℝ) :
    _nlerp_quat none b t = b := by
  cases b <;> rfl

theorem nlerp_quat_none_right (a : Option (ℝ × ℝ × ℝ × ℝ)) (t : ℝ) :
    _nlerp_quat a none t = a := by
  cases a with
  | none => rfl
  | some a0 => obtain ⟨a1, a2, a3, a4⟩ := a0; rfl

/-- Inversion for a successful `mapM` over `Except`: each output entry is the
successful image of the corresponding input entry. -/
theorem mapM_ok_forall2 {α β : Type} (f : α → Except PyError β) :
    ∀ (l : List α) (l2 : List β), l.mapM f = Except.ok l2 →
      List.Forall₂ (fun a b => f a = Except.ok b) l l2 := by
  intro l
  induction l with
  | nil =>
    intro l2 h
    rw [List.mapM_nil] at h
    cases h
    exact List.Forall₂.nil
  | cons a l ih =>
    intro l2 h
    rw [List.mapM_cons] at h
    cases hfa : f a with
    | error e => rw [hfa, except_bind_err] at h; cases h
    | ok b =>
      rw [hfa, except_bind_ok] at h
      cases hml : l.mapM f with
      | error e => rw [hml, except_bind_err] at h; cases h
      | ok bs =>
        rw [hml, except_bind_ok] at h
        cases h
        exact List.Forall₂.cons hfa (ih bs hml)

/-- A zero target rate makes the loop body raise `ZeroDivisionError` at
every frame, from the division `target_frame / target_fps`. -/
theorem resample_frame_target_zero (sorted_kfs : List AnimationKeyframe)
    (recording_fps : ℝ) (i : ℕ) :
    resample_frame sorted_kfs recording_fps 0 i =
      Except.error PyError.zeroDivisionError := by
  unfold resample_frame
  rw [pydiv, if_pos rfl, except_bind_err]

/-- With a nonzero target rate and a nonempty sorted list, the loop body
always succeeds and stamps the target frame index as the new time. -/
theorem resample_frame_ok (sorted_kfs : List AnimationKeyframe)
    (recording_fps target_fps : ℝ) (i : ℕ) (htgt : target_fps ≠ 0)
    (hne : sorted_kfs ≠ []) :
    ∃ kf, resample_frame sorted_kfs recording_fps target_fps i = Except.ok kf ∧
      kf.time = (i : ℝ) := by
  by_cases h0 : bisect_right (sorted_kfs.map AnimationKeyframe.time)
      ((i : ℝ) / target_fps * recording_fps) = 0
  · exact ⟨_, resample_frame_clamp_first sorted_kfs recording_fps target_fps i
      htgt hne h0, rfl⟩
  · by_cases h1 : bisect_right (sorted_kfs.map AnimationKeyframe.time)
        ((i : ℝ) / target_fps * recording_fps) ≥ sorted_kfs.length
    · exact ⟨_, resample_frame_clamp_last sorted_kfs recording_fps target_fps i
        htgt hne h0 h1, rfl⟩
    · have h1lt := not_le.mp h1
      exact ⟨_, resample_frame_interp sorted_kfs recording_fps target_fps i
        htgt (Nat.pos_of_ne_zero h0) h1lt
        (Nat.lt_of_le_of_lt (Nat.sub_le _ _) h1lt), rfl⟩

/-- Unfolding of the main branch of `downsample_keyframes`: under the rate
guard and with at least two keyframes it maps the loop body over the range
of target frames. -/
theorem downsample_main (keyframes : List AnimationKeyframe) (rec tgt : ℝ)
    (hlt : tgt < rec) (hlen : 2 ≤ keyframes.length) (hrec : rec ≠ 0)
    (kfl : AnimationKeyframe)
    (hlast : (sort_keyframes keyframes).getLast? = some kfl) :
    downsample_keyframes keyframes rec tgt =
      (List.range (pyint (kfl.time / rec * tgt) + 1).toNat).mapM
        (resample_frame (sort_keyframes keyframes) rec tgt) := by
  have hne : keyframes ≠ [] := by
    intro h
    rw [h] at hlen
    simp at hlen
  have hne2 : sort_keyframes keyframes ≠ [] := by
    intro h
    have hl := sort_keyframes_length keyframes
    rw [h] at hl
    simp only [List.length_nil] at hl
    omega
  have hguard : ¬(keyframes.isEmpty = true ∨ tgt ≥ rec) := by
    rintro (h | h)
    · exact hne (List.isEmpty_iff.mp h)
    · exact absurd hlt (not_lt.mpr h)
  have hlen2 : ¬((sort_keyframes keyframes).length < 2) := by
    rw [sort_keyframes_length]
    omega
  have hkfl : (sort_keyframes keyframes).getLast hne2 = kfl := by
    rw [List.getLast?_eq_getLast _ hne2] at hlast
    exact Option.some.inj hlast
  unfold downsample_keyframes
  rw [if_neg hguard, if_neg hlen2, pyget_last_eq _ hne2, except_bind_ok]
  simp only [hkfl, pydiv, if_neg hrec, except_bind_ok]

/-- Success specification of `downsample_keyframes` in its main branch: the
output exists, has the predicted length, and its entries are exactly the
outputs of the loop body at each frame index. -/
theorem downsample_spec (kfs : List AnimationKeyframe) (rec tgt : ℝ)
    (hrec : rec ≠ 0) (htgt : tgt ≠ 0) (hlt : tgt < rec) (hlen : 2 ≤ kfs.length) :
    ∃ l, downsample_keyframes kfs rec tgt = Except.ok l ∧
      (∀ kfl, (sort_keyframes kfs).getLast? = some kfl →
        l.length = (pyint (kfl.time / rec * tgt) + 1).toNat) ∧
      ∀ (i : ℕ) (hi : i < l.length),
        resample_frame (sort_keyframes kfs) rec tgt i = Except.ok (l.get ⟨i, hi⟩) := by
  have hne2 : sort_keyframes kfs ≠ [] := by
    intro h
    have hl := sort_keyframes_length kfs
    rw [h] at hl
    simp only [List.length_nil] at hl
    omega
  obtain ⟨kfl0, hlast0⟩ : ∃ kfl0, (sort_keyframes kfs).getLast? = some kfl0 :=
    ⟨_, List.getLast?_eq_getLast _ hne2⟩
  rw [downsample_main kfs rec tgt hlt hlen hrec kfl0 hlast0]
  obtain ⟨l, hmap, hf⟩ := mapM_except_ok _ _
    (fun i _ => ((resample_frame_ok (sort_keyframes kfs) rec tgt i htgt hne2).imp
      fun kf h => h.1))
  have hlength : l.length = (pyint (kfl0.time / rec * tgt) + 1).toNat := by
    rw [← hf.length_eq, List.length_range]
  refine ⟨l, hmap, ?_, ?_⟩
  · intro kfl hlast
    rw [hlast0] at hlast
    cases Option.some.inj hlast
    exact hlength
  · intro i hi
    have hlen2 : (List.range (pyint (kfl0.time / rec * tgt) + 1).toNat).length =
        l.length := hf.length_eq
    have hgets := (List.forall₂_iff_get.mp hf).2 i (by rw [hlen2]; exact hi) hi
    simpa [List.get_eq_getElem, List.getElem_range] using hgets

theorem sort_keyframes_ne_nil {kfs : List AnimationKeyframe} (h : 2 ≤ kfs.length) :
    sort_keyframes kfs ≠ [] := by
  intro he
  have hl := sort_keyframes_length kfs
  rw [he] at hl
  simp only [List.length_nil] at hl
  omega

/-! ### Claim theorems -/

/-- C1 (corrected): calling `downsample_keyframes` with a zero recording
rate on a non-empty keyframe list raises the division error from the
duration computation precisely when the target rate is negative (so the
rate guard `target_fps >= recording_fps` fails) and at least two keyframes
are present; in every other case — in particular for every nonnegative
target rate — the input passes through unchanged and no error is raised. -/
theorem c1_zero_recording_rate (kfs : List AnimationKeyframe) (tgt : ℝ)
    (hne : kfs ≠ []) :
    downsample_keyframes kfs 0 tgt = Except.error PyError.zeroDivisionError ↔
      (tgt < 0 ∧ 2 ≤ kfs.length) := by
  constructor
  · intro h
    by_cases htgt : tgt ≥ 0
    · have hok : downsample_keyframes kfs 0 tgt = Except.ok kfs := by
        unfold downsample_keyframes
        rw [if_pos (Or.inr htgt)]
      rw [hok] at h
      cases h
    · by_cases hlen : 2 ≤ kfs.length
      · exact ⟨not_le.mp htgt, hlen⟩
      · have hok : downsample_keyframes kfs 0 tgt =
            Except.ok (sort_keyframes kfs) := by
          unfold downsample_keyframes
          rw [if_neg, if_pos]
          · rw [sort_keyframes_length]
            omega
          · rintro (hh | hh)
            · exact hne (List.isEmpty_iff.mp hh)
            · exact htgt hh
        rw [hok] at h
        cases h
  · rintro ⟨htgt, hlen⟩
    have hne2 : sort_keyframes kfs ≠ [] := sort_keyframes_ne_nil hlen
    unfold downsample_keyframes
    rw [if_neg, if_neg]
    · rw [pyget_last_eq _ hne2, except_bind_ok]
      simp only [pydiv, eq_self_iff_true, if_true, except_bind_err]
    · rw [sort_keyframes_length]
      omega
    · rintro (hh | hh)
      · exact hne (List.isEmpty_iff.mp hh)
      · exact absurd (lt_of_lt_of_le htgt hh) (lt_irrefl _)

/-- C1 counterexample: a non-empty list with recording rate 0 and the usual
positive target rate 30 hits the pass-through guard, so no error at all is
raised, contradicting the claim that a domain error always arises. -/
theorem c1_counterexample :
    downsample_keyframes [⟨0, none, none, none⟩] 0 30 =
      Except.ok [⟨0, none, none, none⟩] := by
  unfold downsample_keyframes
  rw [if_pos (Or.inr (by norm_num : (30 : ℝ) ≥ 0))]

/-- C1 witness: a two-keyframe list with negative target rate realizes the
error case of the corrected statement. -/
theorem c1_witness :
    (([⟨0, none, none, none⟩, ⟨1, none, none, none⟩] : List AnimationKeyframe) ≠ []) ∧
    (downsample_keyframes [⟨0, none, none, none⟩, ⟨1, none, none, none⟩] 0 (-1) =
        Except.error PyError.zeroDivisionError ↔
      ((-1 : ℝ) < 0 ∧ 2 ≤ ([⟨0, none, none, none⟩, ⟨1, none, none, none⟩] :
        List AnimationKeyframe).length)) :=
  ⟨by simp, c1_zero_recording_rate _ _ (by simp)⟩

/-- C2 (confirmed): whenever the target rate is at least the recording rate
— and likewise for an empty input — `downsample_keyframes` returns the
input list unchanged in content and order. -/
theorem c2_passthrough (kfs : List AnimationKeyframe) (rec tgt : ℝ)
    (h : tgt ≥ rec ∨ kfs = []) :
    downsample_keyframes kfs rec tgt = Except.ok kfs := by
  unfold downsample_keyframes
  rcases h with h | h
  · rw [if_pos (Or.inr h)]
  · rw [if_pos (Or.inl (by rw [h]; rfl))]

/-- C2 witness: equal rates on a one-keyframe list pass it through. -/
theorem c2_witness :
    ((30 : ℝ) ≥ 30 ∨ ([⟨0, none, none, none⟩] : List AnimationKeyframe) = []) ∧
    downsample_keyframes [⟨0, none, none, none⟩] 30 30 =
      Except.ok [⟨0, none, none, none⟩] :=
  ⟨Or.inl (le_refl _), c2_passthrough _ _ _ (Or.inl (le_refl _))⟩

/-- C6 (corrected): with a nonzero recording rate, `time_to_frame` returns
`start_frame + round(time_value / recording_rate * target_rate)` where the
rounding is to the nearest integer with exact half-integer ties resolved to
the even neighbour (the Python 3 rule), not away from zero. -/
theorem c6_time_to_frame_half_even (t rec tgt : ℝ) (s : ℤ) (hrec : rec ≠ 0) :
    time_to_frame t rec tgt s = Except.ok (s + pyround (t / rec * tgt)) ∧
    |t / rec * tgt - (pyround (t / rec * tgt) : ℝ)| ≤ 1 / 2 ∧
    (Int.fract (t / rec * tgt) = 1 / 2 → Even (pyround (t / rec * tgt))) := by
  refine ⟨?_, (pyround_nearest_even _).1, (pyround_nearest_even _).2⟩
  unfold time_to_frame
  rw [pydiv, if_neg hrec, except_bind_ok]
  rfl

/-- C6 counterexample: at `time_value = 1`, `recording_rate = 2`,
`target_rate = 1` the product is the exact half-integer 1/2; the code
rounds it to 0 (half-to-even) while the rounding mode asserted by the claim
(half away from zero) gives 1. -/
theorem c6_counterexample :
    time_to_frame 1 2 1 0 = Except.ok 0 ∧
    round_half_away ((1 : ℝ) / 2 * 1) = 1 := by
  have hhalf : ((1 : ℝ) / 2 * 1) = 1 / 2 := by norm_num
  have hfl : ⌊(1 / 2 : ℝ)⌋ = 0 := by norm_num
  have hfr : Int.fract (1 / 2 : ℝ) = 1 / 2 := by
    rw [Int.fract, hfl]
    norm_num
  constructor
  · have hpr : pyround ((1 : ℝ) / 2 * 1) = 0 := by
      rw [hhalf]
      unfold pyround
      rw [if_pos hfr, if_pos (by rw [hfl]; exact dvd_zero 2 :
        (2 : ℤ) ∣ ⌊(1 / 2 : ℝ)⌋), hfl]
    unfold time_to_frame
    rw [pydiv, if_neg (by norm_num : (2 : ℝ) ≠ 0), except_bind_ok]
    show Except.ok (0 + pyround ((1 : ℝ) / 2 * 1)) = Except.ok 0
    rw [hpr, add_zero]
  · rw [hhalf]
    unfold round_half_away
    rw [if_pos hfr, if_pos (by norm_num : (0 : ℝ) ≤ 1 / 2), hfl]
    norm_num

/-- C6 witness: the corrected statement at time 3, rates 2 and 5, start 7. -/
theorem c6_witness :
    ((2 : ℝ) ≠ 0) ∧
    (time_to_frame 3 2 5 7 = Except.ok (7 + pyround ((3 : ℝ) / 2 * 5)) ∧
     |(3 : ℝ) / 2 * 5 - (pyround ((3 : ℝ) / 2 * 5) : ℝ)| ≤ 1 / 2 ∧
     (Int.fract ((3 : ℝ) / 2 * 5) = 1 / 2 → Even (pyround ((3 : ℝ) / 2 * 5)))) :=
  ⟨by norm_num, c6_time_to_frame_half_even 3 2 5 7 (by norm_num)⟩

/-- C7 (confirmed): for a unit quaternion `q` and a weight in the unit
interval, nlerp between `q` and `-q` takes the shortest path: its result
equals the one of nlerp between `q` and `q`, and both return `q`. -/
theorem c7_nlerp_shortest_path (q : ℝ × ℝ × ℝ × ℝ) (t : ℝ)
    (hq : quat_norm_sq q = 1) (h0 : 0 ≤ t) (h1 : t ≤ 1) :
    _nlerp_quat (some q) (some (quat_neg q)) t = _nlerp_quat (some q) (some q) t ∧
    _nlerp_quat (some q) (some q) t = some q := by
  obtain ⟨q1, q2, q3, q4⟩ := q
  simp only [quat_norm_sq] at hq
  have hS : q1 * q1 + q2 * q2 + q3 * q3 + q4 * q4 = 1 := by nlinarith [hq]
  have hqq : _nlerp_quat (some (q1, q2, q3, q4)) (some (q1, q2, q3, q4)) t =
      some (q1, q2, q3, q4) := by
    simp only [_nlerp_quat]
    have hcond : ¬(q1 * q1 + q2 * q2 + q3 * q3 + q4 * q4 < 0) := by
      rw [hS]
      norm_num
    simp only [if_neg hcond]
    have hx1 : q1 + (q1 - q1) * t = q1 := by ring
    have hx2 : q2 + (q2 - q2) * t = q2 := by ring
    have hx3 : q3 + (q3 - q3) * t = q3 := by ring
    have hx4 : q4 + (q4 - q4) * t = q4 := by ring
    rw [hx1, hx2, hx3, hx4, hS, Real.sqrt_one]
    rw [if_pos (by norm_num : (1 : ℝ) > 0)]
    norm_num
  refine ⟨?_, hqq⟩
  rw [hqq]
  simp only [_nlerp_quat, quat_neg]
  have hcond2 : q1 * -q1 + q2 * -q2 + q3 * -q3 + q4 * -q4 < 0 := by nlinarith [hS]
  simp only [if_pos hcond2]
  have hx1 : q1 + (- -q1 - q1) * t = q1 := by ring
  have hx2 : q2 + (- -q2 - q2) * t = q2 := by ring
  have hx3 : q3 + (- -q3 - q3) * t = q3 := by ring
  have hx4 : q4 + (- -q4 - q4) * t = q4 := by ring
  rw [hx1, hx2, hx3, hx4, hS, Real.sqrt_one]
  rw [if_pos (by norm_num : (1 : ℝ) > 0)]
  norm_num

/-- C7 witness: the unit quaternion (0,0,0,1) at weight one half. -/
theorem c7_witness :
    (quat_norm_sq ((0 : ℝ), 0, 0, 1) = 1 ∧ (0 : ℝ) ≤ 1 / 2 ∧ (1 / 2 : ℝ) ≤ 1) ∧
    (_nlerp_quat (some ((0 : ℝ), 0, 0, 1)) (some (quat_neg ((0 : ℝ), 0, 0, 1)))
        (1 / 2) =
      _nlerp_quat (some ((0 : ℝ), 0, 0, 1)) (some ((0 : ℝ), 0, 0, 1)) (1 / 2) ∧
     _nlerp_quat (some ((0 : ℝ), 0, 0, 1)) (some ((0 : ℝ), 0, 0, 1)) (1 / 2) =
      some ((0 : ℝ), 0, 0, 1)) :=
  ⟨⟨by norm_num [quat_norm_sq], by norm_num, by norm_num⟩,
   c7_nlerp_shortest_path _ _ (by norm_num [quat_norm_sq]) (by norm_num)
     (by norm_num)⟩

/-- C8 (confirmed): in the interpolation branch of the resampling loop, for
each channel (position, rotation, scale): when exactly one of the two
bracketing keyframes carries a value the emitted keyframe carries that
value of that side unchanged, and when neither carries a value the channel stays
absent (the pass-through equations below also cover the two-missing case);
no channel value is ever synthesized from the other side. -/
theorem c8_channel_passthrough (sorted_kfs : List AnimationKeyframe)
    (rec tgt : ℝ) (i : ℕ) (htgt : tgt ≠ 0)
    (h0 : 0 < bisect_right (sorted_kfs.map AnimationKeyframe.time)
      ((i : ℝ) / tgt * rec))
    (h1 : bisect_right (sorted_kfs.map AnimationKeyframe.time)
      ((i : ℝ) / tgt * rec) < sorted_kfs.length) :
    ∃ kf, resample_frame sorted_kfs rec tgt i = Except.ok kf ∧
      ∀ kf_a kf_b : AnimationKeyframe,
        sorted_kfs.get? (bisect_right (sorted_kfs.map AnimationKeyframe.time)
          ((i : ℝ) / tgt * rec) - 1) = some kf_a →
        sorted_kfs.get? (bisect_right (sorted_kfs.map AnimationKeyframe.time)
          ((i : ℝ) / tgt * rec)) = some kf_b →
        (kf_a.position = none → kf.position = kf_b.position) ∧
        (kf_b.position = none → kf.position = kf_a.position) ∧
        (kf_a.rotation = none → kf.rotation = kf_b.rotation) ∧
        (kf_b.rotation = none → kf.rotation = kf_a.rotation) ∧
        (kf_a.scale = none → kf.scale = kf_b.scale) ∧
        (kf_b.scale = none → kf.scale = kf_a.scale) := by
  have ha : bisect_right (sorted_kfs.map AnimationKeyframe.time)
      ((i : ℝ) / tgt * rec) - 1 < sorted_kfs.length :=
    Nat.lt_of_le_of_lt (Nat.sub_le _ _) h1
  refine ⟨_, resample_frame_interp sorted_kfs rec tgt i htgt h0 h1 ha, ?_⟩
  intro kf_a kf_b hga hgb
  obtain ⟨hba, hea⟩ := List.get?_eq_some.mp hga
  obtain ⟨hbb, heb⟩ := List.get?_eq_some.mp hgb
  have hea2 : sorted_kfs.get ⟨bisect_right (sorted_kfs.map AnimationKeyframe.time)
      ((i : ℝ) / tgt * rec) - 1, ha⟩ = kf_a := hea
  have heb2 : sorted_kfs.get ⟨bisect_right (sorted_kfs.map AnimationKeyframe.time)
      ((i : ℝ) / tgt * rec), h1⟩ = kf_b := heb
  rw [hea2, heb2]
  refine ⟨?_, ?_, ?_, ?_, ?_, ?_⟩ <;> intro hnone <;>
    simp only [hnone, lerp_tuple3_none_left, lerp_tuple3_none_right,
      nlerp_quat_none_left, nlerp_quat_none_right]

/-- C8 witness: a concrete two-keyframe sorted list whose times 0 and 2
bracket the query 1 at frame 1 with unit rates. -/
theorem c8_witness :
    ((1 : ℝ) ≠ 0 ∧
     0 < bisect_right (([⟨0, none, none, none⟩, ⟨2, none, none, none⟩] :
       List AnimationKeyframe).map AnimationKeyframe.time) (((1 : ℕ) : ℝ) / 1 * 1) ∧
     bisect_right (([⟨0, none, none, none⟩, ⟨2, none, none, none⟩] :
       List AnimationKeyframe).map AnimationKeyframe.time) (((1 : ℕ) : ℝ) / 1 * 1) <
       ([⟨0, none, none, none⟩, ⟨2, none, none, none⟩] :
         List AnimationKeyframe).length) ∧
    (∃ kf, resample_frame [⟨0, none, none, none⟩, ⟨2, none, none, none⟩] 1 1 1 =
        Except.ok kf ∧
      ∀ kf_a kf_b : AnimationKeyframe,
        ([⟨0, none, none, none⟩, ⟨2, none, none, none⟩] :
          List AnimationKeyframe).get? (bisect_right
            (([⟨0, none, none, none⟩, ⟨2, none, none, none⟩] :
              List AnimationKeyframe).map AnimationKeyframe.time)
            (((1 : ℕ) : ℝ) / 1 * 1) - 1) = some kf_a →
        ([⟨0, none, none, none⟩, ⟨2, none, none, none⟩] :
          List AnimationKeyframe).get? (bisect_right
            (([⟨0, none, none, none⟩, ⟨2, none, none, none⟩] :
              List AnimationKeyframe).map AnimationKeyframe.time)
            (((1 : ℕ) : ℝ) / 1 * 1)) = some kf_b →
        (kf_a.position = none → kf.position = kf_b.position) ∧
        (kf_b.position = none → kf.position = kf_a.position) ∧
        (kf_a.rotation = none → kf.rotation = kf_b.rotation) ∧
        (kf_b.rotation = none → kf.rotation = kf_a.rotation) ∧
        (kf_a.scale = none → kf.scale = kf_b.scale) ∧
        (kf_b.scale = none → kf.scale = kf_a.scale)) := by
  have hb : bisect_right (([⟨0, none, none, none⟩, ⟨2, none, none, none⟩] :
      List AnimationKeyframe).map AnimationKeyframe.time)
      (((1 : ℕ) : ℝ) / 1 * 1) = 1 := by
    simp only [List.map_cons, List.map_nil, bisect_right, List.countP_cons,
      List.countP_nil, decide_eq_true_eq]
    norm_num
  refine ⟨⟨by norm_num, by rw [hb]; norm_num, by rw [hb]; simp⟩, ?_⟩
  exact c8_channel_passthrough _ 1 1 1 (by norm_num) (by rw [hb]; norm_num)
    (by rw [hb]; simp)

/-- C10 (confirmed): whenever the right-biased binary search over the
sorted times returns an interior index, the bracketing keyframes satisfy
`kf_a.time <= query < kf_b.time`, so the time gap is strictly positive, the
guarded weight computation takes its division branch (the degenerate
`t = 0` fallback is unreachable), and the weight lies in `[0, 1)`. -/
theorem c10_bracket_safety (kfs : List AnimationKeyframe) (x : ℝ)
    (h0 : 0 < bisect_right ((sort_keyframes kfs).map AnimationKeyframe.time) x)
    (h1 : bisect_right ((sort_keyframes kfs).map AnimationKeyframe.time) x <
      (sort_keyframes kfs).length) :
    ∀ kf_a kf_b : AnimationKeyframe,
      (sort_keyframes kfs).get? (bisect_right
        ((sort_keyframes kfs).map AnimationKeyframe.time) x - 1) = some kf_a →
      (sort_keyframes kfs).get? (bisect_right
        ((sort_keyframes kfs).map AnimationKeyframe.time) x) = some kf_b →
      kf_a.time ≤ x ∧ x < kf_b.time ∧ 0 < kf_b.time - kf_a.time ∧
      (if kf_b.time - kf_a.time > 0 then
          (x - kf_a.time) / (kf_b.time - kf_a.time) else 0) =
        (x - kf_a.time) / (kf_b.time - kf_a.time) ∧
      0 ≤ (x - kf_a.time) / (kf_b.time - kf_a.time) ∧
      (x - kf_a.time) / (kf_b.time - kf_a.time) < 1 := by
  intro kf_a kf_b hga hgb
  obtain ⟨hba, hea⟩ := List.get?_eq_some.mp hga
  obtain ⟨hbb, heb⟩ := List.get?_eq_some.mp hgb
  obtain ⟨hle, hlt⟩ := sorted_bracket (sort_keyframes kfs) x
    (sort_keyframes_sorted kfs) h0 h1 hba
  rw [hea] at hle
  have hlt2 : x < kf_b.time := by
    rw [← heb]
    exact hlt
  have hdt : 0 < kf_b.time - kf_a.time := by linarith
  refine ⟨hle, hlt2, hdt, if_pos hdt, div_nonneg (by linarith) hdt.le, ?_⟩
  rw [div_lt_one hdt]
  linarith

/-- C10 witness: the two-keyframe sorted list with times 0 and 2 and
query 1 produces the interior insertion point 1. -/
theorem c10_witness :
    (0 < bisect_right ((sort_keyframes [⟨0, none, none, none⟩,
        ⟨2, none, none, none⟩]).map AnimationKeyframe.time) 1 ∧
     bisect_right ((sort_keyframes [⟨0, none, none, none⟩,
        ⟨2, none, none, none⟩]).map AnimationKeyframe.time) 1 <
       (sort_keyframes [⟨0, none, none, none⟩, ⟨2, none, none, none⟩]).length) ∧
    (∀ kf_a kf_b : AnimationKeyframe,
      (sort_keyframes [⟨0, none, none, none⟩, ⟨2, none, none, none⟩]).get?
        (bisect_right ((sort_keyframes [⟨0, none, none, none⟩,
          ⟨2, none, none, none⟩]).map AnimationKeyframe.time) 1 - 1) = some kf_a →
      (sort_keyframes [⟨0, none, none, none⟩, ⟨2, none, none, none⟩]).get?
        (bisect_right ((sort_keyframes [⟨0, none, none, none⟩,
          ⟨2, none, none, none⟩]).map AnimationKeyframe.time) 1) = some kf_b →
      kf_a.time ≤ 1 ∧ (1 : ℝ) < kf_b.time ∧ 0 < kf_b.time - kf_a.time ∧
      (if kf_b.time - kf_a.time > 0 then
          ((1 : ℝ) - kf_a.time) / (kf_b.time - kf_a.time) else 0) =
        ((1 : ℝ) - kf_a.time) / (kf_b.time - kf_a.time) ∧
      0 ≤ ((1 : ℝ) - kf_a.time) / (kf_b.time - kf_a.time) ∧
      ((1 : ℝ) - kf_a.time) / (kf_b.time - kf_a.time) < 1) := by
  have hsc : sort_keyframes [⟨0, none, none, none⟩, ⟨2, none, none, none⟩] =
      [⟨0, none, none, none⟩, ⟨2, none, none, none⟩] :=
    sort_keyframes_of_sorted (by
      refine List.Pairwise.cons ?_ (List.Pairwise.cons (by simp) List.Pairwise.nil)
      intro k hk
      rw [List.mem_singleton] at hk
      subst hk
      norm_num)
  have hb : bisect_right ((sort_keyframes [⟨0, none, none, none⟩,
      ⟨2, none, none, none⟩]).map AnimationKeyframe.time) 1 = 1 := by
    rw [hsc]
    simp only [List.map_cons, List.map_nil, bisect_right, List.countP_cons,
      List.countP_nil, decide_eq_true_eq]
    norm_num
  refine ⟨⟨by rw [hb]; norm_num, by rw [hb, hsc]; simp⟩, ?_⟩
  exact c10_bracket_safety _ 1 (by rw [hb]; norm_num) (by rw [hb, hsc]; simp)

/-- C3 (corrected): under the main-branch hypotheses — at least two
keyframes, `target_rate < recording_rate`, nonzero recording rate, and
additionally a nonzero target rate (a zero target rate instead raises
`ZeroDivisionError` inside the loop) — the output length is
`int(last_sorted_time / recording_rate * target_rate) + 1` clamped below at
0, where `int` is truncation toward zero (Python `int()`), which agrees
with the floor stated by the claim whenever the product is nonnegative; and
the time field of the i-th output keyframe is the frame index i as a float. -/
theorem c3_length_and_times (kfs : List AnimationKeyframe) (rec tgt : ℝ)
    (hrec : rec ≠ 0) (htgt : tgt ≠ 0) (hlt : tgt < rec) (hlen : 2 ≤ kfs.length) :
    ∀ kfl, (sort_keyframes kfs).getLast? = some kfl →
      ∃ l, downsample_keyframes kfs rec tgt = Except.ok l ∧
        l.length = (pyint (kfl.time / rec * tgt) + 1).toNat ∧
        (0 ≤ kfl.time / rec * tgt →
          pyint (kfl.time / rec * tgt) = ⌊kfl.time / rec * tgt⌋) ∧
        ∀ (i : ℕ) (hi : i < l.length), (l.get ⟨i, hi⟩).time = (i : ℝ) := by
  intro kfl hlast
  obtain ⟨l, hok, hlength, hframes⟩ := downsample_spec kfs rec tgt hrec htgt hlt hlen
  refine ⟨l, hok, hlength kfl hlast, fun h => by unfold pyint; rw [if_pos h], ?_⟩
  intro i hi
  obtain ⟨kf, hkf, htime⟩ := resample_frame_ok (sort_keyframes kfs) rec tgt i htgt
    (sort_keyframes_ne_nil hlen)
  have h2 := hframes i hi
  rw [hkf] at h2
  rw [← Except.ok.inj h2]
  exact htime

/-- C3 counterexample: with `target_rate = 0 < recording_rate = 1` and two
keyframes the claim predicts an output of length `floor(0) + 1 = 1`, but
the loop body divides the frame index by the zero target rate and raises
`ZeroDivisionError` instead of returning a list. -/
theorem c3_counterexample :
    downsample_keyframes [⟨0, none, none, none⟩, ⟨1, none, none, none⟩] 1 0 =
      Except.error PyError.zeroDivisionError := by
  have hsc : sort_keyframes [⟨0, none, none, none⟩, ⟨1, none, none, none⟩] =
      [⟨0, none, none, none⟩, ⟨1, none, none, none⟩] :=
    sort_keyframes_of_sorted (by
      refine List.Pairwise.cons ?_ (List.Pairwise.cons (by simp) List.Pairwise.nil)
      intro k hk
      rw [List.mem_singleton] at hk
      subst hk
      norm_num)
  have hne2 : ([⟨0, none, none, none⟩, ⟨1, none, none, none⟩] :
      List AnimationKeyframe) ≠ [] := by simp
  unfold downsample_keyframes
  rw [if_neg (by
    rintro (hh | hh)
    · simp at hh
    · exact absurd hh (by norm_num))]
  simp only [hsc]
  rw [if_neg (by simp)]
  rw [pyget_last_eq _ hne2, except_bind_ok]
  simp only [pydiv, if_neg (one_ne_zero : (1 : ℝ) ≠ 0), except_bind_ok, mul_zero]
  have hpy : pyint 0 = 0 := by
    unfold pyint
    rw [if_pos le_rfl, Int.floor_zero]
  rw [hpy]
  rw [show ((0 : ℤ) + 1).toNat = 1 from rfl,
    show List.range 1 = [0] from rfl, List.mapM_cons,
    resample_frame_target_zero, except_bind_err]

/-- C3 witness: the corrected statement at two keyframes with times 0 and
2, recording rate 2, target rate 1. -/
theorem c3_witness :
    ((2 : ℝ) ≠ 0 ∧ (1 : ℝ) ≠ 0 ∧ (1 : ℝ) < 2 ∧
     2 ≤ ([⟨0, none, none, none⟩, ⟨2, none, none, none⟩] :
       List AnimationKeyframe).length) ∧
    (∀ kfl, (sort_keyframes [⟨0, none, none, none⟩,
        ⟨2, none, none, none⟩]).getLast? = some kfl →
      ∃ l, downsample_keyframes [⟨0, none, none, none⟩, ⟨2, none, none, none⟩]
          2 1 = Except.ok l ∧
        l.length = (pyint (kfl.time / 2 * 1) + 1).toNat ∧
        (0 ≤ kfl.time / 2 * 1 →
          pyint (kfl.time / 2 * 1) = ⌊kfl.time / 2 * 1⌋) ∧
        ∀ (i : ℕ) (hi : i < l.length), (l.get ⟨i, hi⟩).time = (i : ℝ)) :=
  ⟨⟨by norm_num, by norm_num, by norm_num, by simp⟩,
   c3_length_and_times _ 2 1 (by norm_num) (by norm_num) (by norm_num) (by simp)⟩

theorem pairwise_head_le {l : List AnimationKeyframe}
    (hs : List.Pairwise (fun k1 k2 => k1.time ≤ k2.time) l) (hne : l ≠ []) :
    ∀ kf ∈ l, (l.head hne).time ≤ kf.time := by
  cases l with
  | nil => exact absurd rfl hne
  | cons a rest =>
    intro kf hkf
    rcases List.mem_cons.mp hkf with rfl | h
    · exact le_refl _
    · exact (List.pairwise_cons.mp hs).1 kf h

theorem pairwise_le_getLast {l : List AnimationKeyframe}
    (hs : List.Pairwise (fun k1 k2 => k1.time ≤ k2.time) l) (hne : l ≠ []) :
    ∀ kf ∈ l, kf.time ≤ (l.getLast hne).time := by
  induction l with
  | nil => exact absurd rfl hne
  | cons a rest ih =>
    intro kf hkf
    rcases List.mem_cons.mp hkf with rfl | h
    · cases rest with
      | nil => exact le_refl _
      | cons b rest2 =>
        rw [List.getLast_cons (by simp)]
        have hab : kf.time ≤ b.time := (List.pairwise_cons.mp hs).1 b (by simp)
        exact le_trans hab
          (ih (List.pairwise_cons.mp hs).2 (by simp) b (by simp))
    · cases rest with
      | nil => cases h
      | cons b rest2 =>
        rw [List.getLast_cons (by simp)]
        exact ih (List.pairwise_cons.mp hs).2 (by simp) kf h

/-- C4 (confirmed): in a resampled output, every target frame whose
source-time coordinate falls strictly before the time of the first sorted
keyframe carries exactly the position, rotation and scale of the first
keyframe, and every frame whose coordinate falls strictly after the time of
the last keyframe carries exactly the values of the last keyframe. -/
theorem c4_boundary_clamp (kfs : List AnimationKeyframe) (rec tgt : ℝ)
    (hrec : rec ≠ 0) (htgt : tgt ≠ 0) (hlt : tgt < rec) (hlen : 2 ≤ kfs.length) :
    ∀ kff kfl, (sort_keyframes kfs).head? = some kff →
      (sort_keyframes kfs).getLast? = some kfl →
      ∃ l, downsample_keyframes kfs rec tgt = Except.ok l ∧
        ∀ (i : ℕ) (hi : i < l.length),
          ((i : ℝ) / tgt * rec < kff.time → sameChannels (l.get ⟨i, hi⟩) kff) ∧
          (kfl.time < (i : ℝ) / tgt * rec → sameChannels (l.get ⟨i, hi⟩) kfl) := by
  intro kff kfl hh hl
  have hne2 : sort_keyframes kfs ≠ [] := sort_keyframes_ne_nil hlen
  have hhead : (sort_keyframes kfs).head hne2 = kff := by
    rw [List.head?_eq_head hne2] at hh
    exact Option.some.inj hh
  have hlast : (sort_keyframes kfs).getLast hne2 = kfl := by
    rw [List.getLast?_eq_getLast _ hne2] at hl
    exact Option.some.inj hl
  obtain ⟨l, hok, _, hframes⟩ := downsample_spec kfs rec tgt hrec htgt hlt hlen
  refine ⟨l, hok, ?_⟩
  intro i hi
  constructor
  · intro hbefore
    have hidx : bisect_right ((sort_keyframes kfs).map AnimationKeyframe.time)
        ((i : ℝ) / tgt * rec) = 0 := by
      apply bisect_right_eq_zero
      intro y hy
      obtain ⟨kf, hkf, rfl⟩ := List.mem_map.mp hy
      have hle := pairwise_head_le (sort_keyframes_sorted kfs) hne2 kf hkf
      rw [hhead] at hle
      linarith
    have hcl := resample_frame_clamp_first (sort_keyframes kfs) rec tgt i htgt
      hne2 hidx
    have h2 := hframes i hi
    rw [hcl] at h2
    rw [← Except.ok.inj h2]
    simp [sameChannels, hhead]
  · intro hafter
    have hidx : bisect_right ((sort_keyframes kfs).map AnimationKeyframe.time)
        ((i : ℝ) / tgt * rec) =
        ((sort_keyframes kfs).map AnimationKeyframe.time).length := by
      apply bisect_right_eq_length
      intro y hy
      obtain ⟨kf, hkf, rfl⟩ := List.mem_map.mp hy
      have hle := pairwise_le_getLast (sort_keyframes_sorted kfs) hne2 kf hkf
      rw [hlast] at hle
      linarith
    rw [List.length_map] at hidx
    have hidx0 : bisect_right ((sort_keyframes kfs).map AnimationKeyframe.time)
        ((i : ℝ) / tgt * rec) ≠ 0 := by
      rw [hidx, sort_keyframes_length]
      omega
    have hcl := resample_frame_clamp_last (sort_keyframes kfs) rec tgt i htgt
      hne2 hidx0 (le_of_eq hidx.symm)
    have h2 := hframes i hi
    rw [hcl] at h2
    rw [← Except.ok.inj h2]
    simp [sameChannels, hlast]

/-- C4 witness: the clamp statement at two keyframes with times 0 and 2,
recording rate 2, target rate 1. -/
theorem c4_witness :
    ((2 : ℝ) ≠ 0 ∧ (1 : ℝ) ≠ 0 ∧ (1 : ℝ) < 2 ∧
     2 ≤ ([⟨0, none, none, none⟩, ⟨2, none, none, none⟩] :
       List AnimationKeyframe).length) ∧
    (∀ kff kfl,
      (sort_keyframes [⟨0, none, none, none⟩, ⟨2, none, none, none⟩]).head? =
        some kff →
      (sort_keyframes [⟨0, none, none, none⟩, ⟨2, none, none, none⟩]).getLast? =
        some kfl →
      ∃ l, downsample_keyframes [⟨0, none, none, none⟩, ⟨2, none, none, none⟩]
          2 1 = Except.ok l ∧
        ∀ (i : ℕ) (hi : i < l.length),
          ((i : ℝ) / 1 * 2 < kff.time → sameChannels (l.get ⟨i, hi⟩) kff) ∧
          (kfl.time < (i : ℝ) / 1 * 2 → sameChannels (l.get ⟨i, hi⟩) kfl)) :=
  ⟨⟨by norm_num, by norm_num, by norm_num, by simp⟩,
   c4_boundary_clamp _ 2 1 (by norm_num) (by norm_num) (by norm_num) (by simp)⟩

theorem quat_norm_eq_one_iff (q : ℝ × ℝ × ℝ × ℝ) :
    quat_norm q = 1 ↔ quat_norm_sq q = 1 := by
  unfold quat_norm
  exact Real.sqrt_eq_one

/-- C5 (confirmed): if every rotation present in the input is a unit
quaternion, then every rotation present in any successful output of
`downsample_keyframes` has magnitude exactly 1 (the nlerp step renormalizes
its interpolated result, whose length is provably nonzero for these
inputs). -/
theorem c5_unit_rotations (kfs : List AnimationKeyframe) (rec tgt : ℝ)
    (hunit : ∀ kf ∈ kfs, ∀ q, kf.rotation = some q → quat_norm q = 1) :
    ∀ l, downsample_keyframes kfs rec tgt = Except.ok l →
      ∀ kf ∈ l, ∀ q, kf.rotation = some q → quat_norm q = 1 := by
  intro l hok kf hmem q hq
  by_cases hguard : kfs.isEmpty = true ∨ tgt ≥ rec
  · have hpass : downsample_keyframes kfs rec tgt = Except.ok kfs := by
      unfold downsample_keyframes
      rw [if_pos hguard]
    rw [hpass] at hok
    cases Except.ok.inj hok
    exact hunit kf hmem q hq
  · have hne : kfs ≠ [] := fun h => hguard (Or.inl (by rw [h]; rfl))
    have hlt : tgt < rec := not_le.mp fun h => hguard (Or.inr h)
    by_cases hshort : (sort_keyframes kfs).length < 2
    · have hpass : downsample_keyframes kfs rec tgt =
          Except.ok (sort_keyframes kfs) := by
        unfold downsample_keyframes
        rw [if_neg hguard, if_pos hshort]
      rw [hpass] at hok
      cases Except.ok.inj hok
      exact hunit kf (mem_sort_keyframes.mp hmem) q hq
    · have hlen : 2 ≤ kfs.length := by
        rw [← sort_keyframes_length kfs]
        omega
      have hne2 : sort_keyframes kfs ≠ [] := sort_keyframes_ne_nil hlen
      by_cases hrec : rec = 0
      · exfalso
        subst hrec
        have herr : downsample_keyframes kfs 0 tgt =
            Except.error PyError.zeroDivisionError := by
          unfold downsample_keyframes
          rw [if_neg hguard, if_neg hshort, pyget_last_eq _ hne2, except_bind_ok]
          simp only [pydiv, eq_self_iff_true, if_true, except_bind_err]
        rw [herr] at hok
        cases hok
      by_cases htgt : tgt = 0
      · exfalso
        subst htgt
        obtain ⟨kfl0, hlast0⟩ : ∃ k, (sort_keyframes kfs).getLast? = some k :=
          ⟨_, List.getLast?_eq_getLast _ hne2⟩
        rw [downsample_main kfs rec 0 hlt hlen hrec kfl0 hlast0, mul_zero] at hok
        have hpy : pyint 0 = 0 := by
          unfold pyint
          rw [if_pos le_rfl, Int.floor_zero]
        rw [hpy, show ((0 : ℤ) + 1).toNat = 1 from rfl,
          show List.range 1 = [0] from rfl, List.mapM_cons,
          resample_frame_target_zero, except_bind_err] at hok
        cases hok
      obtain ⟨l0, hok0, _, hframes⟩ := downsample_spec kfs rec tgt hrec htgt hlt hlen
      rw [hok0] at hok
      cases Except.ok.inj hok
      obtain ⟨⟨i, hi⟩, hget⟩ := List.mem_iff_get.mp hmem
      have hfr := hframes i hi
      rw [hget] at hfr
      by_cases hidx0 : bisect_right ((sort_keyframes kfs).map AnimationKeyframe.time)
          ((i : ℝ) / tgt * rec) = 0
      · rw [resample_frame_clamp_first _ _ _ _ htgt hne2 hidx0] at hfr
        have hrot := congrArg AnimationKeyframe.rotation (Except.ok.inj hfr)
        dsimp only at hrot
        rw [hq] at hrot
        exact hunit _ (mem_sort_keyframes.mp (List.head_mem hne2)) q hrot
      · by_cases hidxN : bisect_right ((sort_keyframes kfs).map AnimationKeyframe.time)
            ((i : ℝ) / tgt * rec) ≥ (sort_keyframes kfs).length
        · rw [resample_frame_clamp_last _ _ _ _ htgt hne2 hidx0 hidxN] at hfr
          have hrot := congrArg AnimationKeyframe.rotation (Except.ok.inj hfr)
          dsimp only at hrot
          rw [hq] at hrot
          exact hunit _ (mem_sort_keyframes.mp (List.getLast_mem hne2)) q hrot
        · have h1 : bisect_right ((sort_keyframes kfs).map AnimationKeyframe.time)
              ((i : ℝ) / tgt * rec) < (sort_keyframes kfs).length := not_le.mp hidxN
          have h0 : 0 < bisect_right ((sort_keyframes kfs).map AnimationKeyframe.time)
              ((i : ℝ) / tgt * rec) := Nat.pos_of_ne_zero hidx0
          have ha : bisect_right ((sort_keyframes kfs).map AnimationKeyframe.time)
              ((i : ℝ) / tgt * rec) - 1 < (sort_keyframes kfs).length :=
            Nat.lt_of_le_of_lt (Nat.sub_le _ _) h1
          rw [resample_frame_interp _ _ _ _ htgt h0 h1 ha] at hfr
          have hrot := congrArg AnimationKeyframe.rotation (Except.ok.inj hfr)
          dsimp only at hrot
          rw [hq] at hrot
          obtain ⟨hta, htb⟩ := sorted_bracket (sort_keyframes kfs)
            ((i : ℝ) / tgt * rec) (sort_keyframes_sorted kfs) h0 h1 ha
          have hdt : ((sort_keyframes kfs).get ⟨bisect_right
              ((sort_keyframes kfs).map AnimationKeyframe.time)
              ((i : ℝ) / tgt * rec), h1⟩).time -
              ((sort_keyframes kfs).get ⟨bisect_right
              ((sort_keyframes kfs).map AnimationKeyframe.time)
              ((i : ℝ) / tgt * rec) - 1, ha⟩).time > 0 := by linarith
          rw [if_pos hdt] at hrot
          have h0t : 0 ≤ ((i : ℝ) / tgt * rec -
              ((sort_keyframes kfs).get ⟨bisect_right
              ((sort_keyframes kfs).map AnimationKeyframe.time)
              ((i : ℝ) / tgt * rec) - 1, ha⟩).time) /
              (((sort_keyframes kfs).get ⟨bisect_right
              ((sort_keyframes kfs).map AnimationKeyframe.time)
              ((i : ℝ) / tgt * rec), h1⟩).time -
              ((sort_keyframes kfs).get ⟨bisect_right
              ((sort_keyframes kfs).map AnimationKeyframe.time)
              ((i : ℝ) / tgt * rec) - 1, ha⟩).time) :=
            div_nonneg (by linarith) (le_of_lt hdt)
          have h1t : ((i : ℝ) / tgt * rec -
              ((sort_keyframes kfs).get ⟨bisect_right
              ((sort_keyframes kfs).map AnimationKeyframe.time)
              ((i : ℝ) / tgt * rec) - 1, ha⟩).time) /
              (((sort_keyframes kfs).get ⟨bisect_right
              ((sort_keyframes kfs).map AnimationKeyframe.time)
              ((i : ℝ) / tgt * rec), h1⟩).time -
              ((sort_keyframes kfs).get ⟨bisect_right
              ((sort_keyframes kfs).map AnimationKeyframe.time)
              ((i : ℝ) / tgt * rec) - 1, ha⟩).time) ≤ 1 :=
            le_of_lt ((div_lt_one hdt).mpr (by linarith))
          cases hra : ((sort_keyframes kfs).get ⟨bisect_right
              ((sort_keyframes kfs).map AnimationKeyframe.time)
              ((i : ℝ) / tgt * rec) - 1, ha⟩).rotation with
          | none =>
            rw [hra, nlerp_quat_none_left] at hrot
            exact hunit _ (mem_sort_keyframes.mp (List.get_mem _ _ _)) q hrot
          | some qa =>
            cases hrb : ((sort_keyframes kfs).get ⟨bisect_right
                ((sort_keyframes kfs).map AnimationKeyframe.time)
                ((i : ℝ) / tgt * rec), h1⟩).rotation with
            | none =>
              rw [hrb, nlerp_quat_none_right] at hrot
              exact hunit _ (mem_sort_keyframes.mp (List.get_mem _ _ _)) q hrot
            | some qb =>
              rw [hra, hrb] at hrot
              have hqa : quat_norm_sq qa = 1 :=
                (quat_norm_eq_one_iff qa).mp
                  (hunit _ (mem_sort_keyframes.mp (List.get_mem _ _ _)) qa hra)
              have hqb : quat_norm_sq qb = 1 :=
                (quat_norm_eq_one_iff qb).mp
                  (hunit _ (mem_sort_keyframes.mp (List.get_mem _ _ _)) qb hrb)
              exact (quat_norm_eq_one_iff q).mpr
                (nlerp_quat_unit hqa hqb h0t h1t q hrot)

/-- C5 witness: a single keyframe carrying the unit quaternion (0,0,0,1),
passed through with target rate 2 over recording rate 1. -/
theorem c5_witness :
    (∀ kf ∈ ([⟨0, none, some ((0 : ℝ), 0, 0, 1), none⟩] : List AnimationKeyframe),
      ∀ q, kf.rotation = some q → quat_norm q = 1) ∧
    downsample_keyframes [⟨0, none, some ((0 : ℝ), 0, 0, 1), none⟩] 1 2 =
      Except.ok [⟨0, none, some ((0 : ℝ), 0, 0, 1), none⟩] ∧
    (∀ kf ∈ ([⟨0, none, some ((0 : ℝ), 0, 0, 1), none⟩] : List AnimationKeyframe),
      ∀ q, kf.rotation = some q → quat_norm q = 1) := by
  have hu : ∀ kf ∈ ([⟨0, none, some ((0 : ℝ), 0, 0, 1), none⟩] :
      List AnimationKeyframe), ∀ q, kf.rotation = some q → quat_norm q = 1 := by
    intro kf hkf q hq
    rw [List.mem_singleton] at hkf
    subst hkf
    cases Option.some.inj hq
    rw [quat_norm_eq_one_iff]
    norm_num [quat_norm_sq]
  have hok : downsample_keyframes [⟨0, none, some ((0 : ℝ), 0, 0, 1), none⟩] 1 2 =
      Except.ok [⟨0, none, some ((0 : ℝ), 0, 0, 1), none⟩] := by
    unfold downsample_keyframes
    rw [if_pos (Or.inr (by norm_num : (2 : ℝ) ≥ 1))]
  exact ⟨hu, hok, c5_unit_rotations _ _ _ hu _ hok⟩

theorem foldl_max_time_spec (kfl : List AnimationKeyframe) :
    ∀ init : ℝ,
      init ≤ kfl.foldl (fun acc2 kf => max acc2 kf.time) init ∧
      (∀ kf ∈ kfl, kf.time ≤ kfl.foldl (fun acc2 kf => max acc2 kf.time) init) ∧
      (kfl.foldl (fun acc2 kf => max acc2 kf.time) init = init ∨
        ∃ kf ∈ kfl, kf.time = kfl.foldl (fun acc2 kf => max acc2 kf.time) init) := by
  induction kfl with
  | nil =>
    intro init
    exact ⟨le_refl _, by simp, Or.inl rfl⟩
  | cons a rest ih =>
    intro init
    simp only [List.foldl_cons]
    obtain ⟨h1, h2, h3⟩ := ih (max init a.time)
    refine ⟨le_trans (le_max_left _ _) h1, ?_, ?_⟩
    · intro kf hkf
      rcases List.mem_cons.mp hkf with rfl | h
      · exact le_trans (le_max_right _ _) h1
      · exact h2 kf h
    · rcases h3 with h3 | ⟨kf2, hkf2, he⟩
      · rcases max_choice init a.time with hm | hm
        · exact Or.inl (by rw [h3, hm])
        · exact Or.inr ⟨a, by simp, by rw [h3, hm]⟩
      · exact Or.inr ⟨kf2, by simp [hkf2], he⟩

theorem nodes_fold_max_spec (nodes : List SceneNode) :
    ∀ init : ℝ,
      init ≤ nodes.foldl (fun acc node => node.keyframes.foldl
        (fun acc2 kf => max acc2 kf.time) acc) init ∧
      (∀ nd ∈ nodes, ∀ kf ∈ nd.keyframes, kf.time ≤ nodes.foldl
        (fun acc node => node.keyframes.foldl
          (fun acc2 kf => max acc2 kf.time) acc) init) ∧
      (nodes.foldl (fun acc node => node.keyframes.foldl
          (fun acc2 kf => max acc2 kf.time) acc) init = init ∨
        ∃ nd ∈ nodes, ∃ kf ∈ nd.keyframes, kf.time = nodes.foldl
          (fun acc node => node.keyframes.foldl
            (fun acc2 kf => max acc2 kf.time) acc) init) := by
  induction nodes with
  | nil =>
    intro init
    exact ⟨le_refl _, by simp, Or.inl rfl⟩
  | cons nd rest ih =>
    intro init
    simp only [List.foldl_cons]
    obtain ⟨hi1, hi2, hi3⟩ := foldl_max_time_spec nd.keyframes init
    obtain ⟨h1, h2, h3⟩ := ih (nd.keyframes.foldl
      (fun acc2 kf => max acc2 kf.time) init)
    refine ⟨le_trans hi1 h1, ?_, ?_⟩
    · intro nd2 hnd2 kf hkf
      rcases List.mem_cons.mp hnd2 with rfl | h
      · exact le_trans (hi2 kf hkf) h1
      · exact h2 nd2 h kf hkf
    · rcases h3 with h3 | ⟨nd2, hnd2, kf2, hkf2, he⟩
      · rcases hi3 with hi3 | ⟨kf2, hkf2, he⟩
        · exact Or.inl (by rw [h3, hi3])
        · exact Or.inr ⟨nd, by simp, kf2, hkf2, by rw [h3, ← he]⟩
      · exact Or.inr ⟨nd2, by simp [hnd2], kf2, hkf2, he⟩

/-- C9 (corrected): with a nonzero recording rate, `get_animation_range`
reports `(start_frame, start_frame + round(M / recording_rate *
target_rate))` where `M` is the maximum-time fold started at 0: it is
nonnegative, bounds every keyframe time of every node, and is either 0 or
attained by some keyframe — so it equals the maximum keyframe time only
when some keyframe time is nonnegative, not in general as claimed. -/
theorem c9_animation_range (nodes : List SceneNode) (rec tgt : ℝ) (s : ℤ)
    (hrec : rec ≠ 0) :
    get_animation_range nodes rec tgt s =
      Except.ok (s, s + pyround ((nodes.foldl (fun acc node =>
        node.keyframes.foldl (fun acc2 kf => max acc2 kf.time) acc) 0) /
          rec * tgt)) ∧
    0 ≤ nodes.foldl (fun acc node => node.keyframes.foldl
      (fun acc2 kf => max acc2 kf.time) acc) 0 ∧
    (∀ nd ∈ nodes, ∀ kf ∈ nd.keyframes, kf.time ≤ nodes.foldl
      (fun acc node => node.keyframes.foldl
        (fun acc2 kf => max acc2 kf.time) acc) 0) ∧
    (nodes.foldl (fun acc node => node.keyframes.foldl
        (fun acc2 kf => max acc2 kf.time) acc) 0 = 0 ∨
      ∃ nd ∈ nodes, ∃ kf ∈ nd.keyframes, kf.time = nodes.foldl
        (fun acc node => node.keyframes.foldl
          (fun acc2 kf => max acc2 kf.time) acc) 0) := by
  obtain ⟨h1, h2, h3⟩ := nodes_fold_max_spec nodes 0
  refine ⟨?_, h1, h2, h3⟩
  simp only [get_animation_range, pydiv, if_neg hrec, except_bind_ok]
  rfl

/-- C9 counterexample: a single node whose only keyframe has time -1, with
unit rates and start frame 0.  The code reports the range (0, 0) because
its maximum-time scan starts at 0, while the claimed formula over the
maximum keyframe time would report (0, -1). -/
theorem c9_counterexample :
    get_animation_range [⟨[⟨-1, none, none, none⟩]⟩] 1 1 0 = Except.ok (0, 0) ∧
    (0 : ℤ) + pyround ((-1 : ℝ) / 1 * 1) = -1 := by
  constructor
  · simp only [get_animation_range, List.foldl_cons, List.foldl_nil]
    rw [pydiv, if_neg (one_ne_zero : (1 : ℝ) ≠ 0), except_bind_ok]
    have harg : max (0 : ℝ) ((⟨-1, none, none, none⟩ :
        AnimationKeyframe).time) / 1 * 1 = 0 := by
      norm_num [max_def]
    rw [harg]
    have hpr : pyround (0 : ℝ) = 0 := by
      unfold pyround
      rw [if_neg (by norm_num [Int.fract] : ¬(Int.fract (0 : ℝ) = 1 / 2))]
      norm_num [round_eq]
    rw [hpr]
    rfl
  · have h1 : (-1 : ℝ) / 1 * 1 = -1 := by norm_num
    rw [h1]
    have hpr : pyround (-1 : ℝ) = -1 := by
      unfold pyround
      rw [if_neg (by norm_num [Int.fract] : ¬(Int.fract (-1 : ℝ) = 1 / 2))]
      norm_num [round_eq]
    rw [hpr]
    norm_num

/-- C9 witness: the concrete scenario of the claim — keyframes maxing out
at time 2000 with recording rate 1000, target rate 30 and start frame 0
yield the range (0, 60). -/
theorem c9_witness :
    get_animation_range [⟨[⟨2000, none, none, none⟩]⟩] 1000 30 0 =
      Except.ok (0, 60) := by
  have h := (c9_animation_range [⟨[⟨2000, none, none, none⟩]⟩] 1000 30 0
    (by norm_num)).1
  rw [h]
  have hfold : ([⟨[⟨2000, none, none, none⟩]⟩] : List SceneNode).foldl
      (fun acc node => node.keyframes.foldl
        (fun acc2 kf => max acc2 kf.time) acc) 0 = 2000 := by
    simp only [List.foldl_cons, List.foldl_nil]
    norm_num [max_def]
  rw [hfold]
  have harg : (2000 : ℝ) / 1000 * 30 = 60 := by norm_num
  rw [harg]
  have hpr : pyround (60 : ℝ) = 60 := by
    unfold pyround
    rw [if_neg (by norm_num [Int.fract] : ¬(Int.fract (60 : ℝ) = 1 / 2))]
    norm_num [round_eq]
  rw [hpr]
  norm_num
